import Mathlib

/-!
Verification of the Frauditor review scraper (frontend/utils.js,
frontend/content.js, and the background relay script).

The DOM fragments the scraper walks are modelled as a tree of nodes, each
carrying the four text attributes the code reads (className, the SVG
className.baseVal, textContent, innerText).  JavaScript string methods used
by the code, namely split with a one-character separator, trim, and
includes, are modelled as structurally recursive functions over the
character list of the string.  A JavaScript TypeError arising from a
property access on undefined is modelled by Option: a function returns none
exactly when the original code throws.
-/

/-- Splits a character list at every occurrence of the separator, keeping
empty segments, like the JavaScript split method with a one-character
separator string. -/
def splitCharAux (sep : Char) : List Char → List Char → List (List Char)
  | [], acc => [acc.reverse]
  | c :: cs, acc =>
    if c = sep then acc.reverse :: splitCharAux sep cs []
    else splitCharAux sep cs (c :: acc)

/-- Entry point of the split model: splitChar of the separator and a string
body, starting from an empty accumulator. -/
def splitChar (sep : Char) (s : List Char) : List (List Char) :=
  splitCharAux sep s []

/-- Model of the JavaScript split method restricted to the one-character
separators used by the code (the bar and the colon). -/
def jsSplit (sep : Char) (s : String) : List String :=
  (splitChar sep s.data).map String.mk

/-- Model of the JavaScript trim method: whitespace is removed from both
ends of the string. -/
def jsTrim (s : String) : String :=
  String.mk (((s.data.dropWhile Char.isWhitespace).reverse.dropWhile Char.isWhitespace).reverse)

/-- Substring test on character lists, matching the JavaScript includes
method: true when pat occurs contiguously in the list. -/
def containsSeq (pat : List Char) : List Char → Bool
  | [] => pat.isEmpty
  | c :: cs => pat.isPrefixOf (c :: cs) || containsSeq pat cs

/-- Model of the JavaScript includes method on strings. -/
def jsIncludes (s pat : String) : Bool :=
  containsSeq pat.data s.data

/-- Attributes of one DOM node that the scraper reads.  baseVal models the
className.baseVal of an SVG element (the rating stars). -/
structure NodeData where
  className : String := ""
  baseVal : String := ""
  textContent : String := ""
  innerText : String := ""
deriving DecidableEq

/-- A DOM subtree: node attributes together with the list of child nodes.
The model identifies the children and childNodes collections, since the
scraper indexes both positionally. -/
inductive Dom where
  | node : NodeData → List Dom → Dom

/-- Attribute record of the root of a DOM subtree. -/
def Dom.data : Dom → NodeData
  | .node d _ => d

/-- Child list of the root of a DOM subtree. -/
def Dom.childNodes : Dom → List Dom
  | .node _ cs => cs

/-- Shorthand accessor for className. -/
def Dom.className (d : Dom) : String := d.data.className

/-- Shorthand accessor for the SVG className.baseVal. -/
def Dom.baseVal (d : Dom) : String := d.data.baseVal

/-- Shorthand accessor for textContent. -/
def Dom.textContent (d : Dom) : String := d.data.textContent

/-- Shorthand accessor for innerText. -/
def Dom.innerText (d : Dom) : String := d.data.innerText

/-- The three purchase-metadata fields set by getReviews in
frontend/utils.js lines 41 to 56, in declaration order. -/
structure PurchaseInfo where
  location : String
  purchaseDate : String
  itemVariation : String
deriving DecidableEq

/-- Shape classification of the purchase-metadata element, from
frontend/utils.js lines 29 to 39: more than one child means the
location shape; otherwise a bar in the text of the only child means the
variation shape, else the date-only shape.  Returns none when the
container is empty, because the code then reads textContent of an
undefined element and throws. -/
def classifyPurchaseInfo (cs : List Dom) : Option String :=
  if cs.length > 1 then some "location"
  else
    match cs.get? 0 with
    | none => none
    | some c =>
      if (jsSplit '|' c.textContent).length > 1 then some "variation"
      else some "dateonly"

/-- Field extraction for the purchase-metadata element, from
frontend/utils.js lines 41 to 56.  In the variation branch the code splits
the text of child 0 and assigns part 0 to the date and part 1 to the
variation; in the location branch it splits the text of child 1 and
assigns part 0 to the location and part 1 to the date (throwing, hence
none, when that text has no bar, since part 1 is then undefined and the
code calls trim on it); in the date-only branch the trimmed whole text of
child 0 is the date. -/
def extractPurchaseInfo (cs : List Dom) : Option PurchaseInfo :=
  match classifyPurchaseInfo cs with
  | none => none
  | some t =>
    if t = "variation" then
      match cs.get? 0 with
      | none => none
      | some c =>
        match jsSplit '|' c.textContent with
        | p0 :: p1 :: _ => some ⟨"", jsTrim p0, jsTrim p1⟩
        | _ => none
    else if t = "location" then
      match cs.get? 1 with
      | none => none
      | some c =>
        match jsSplit '|' c.textContent with
        | p0 :: p1 :: _ => some ⟨jsTrim p0, jsTrim p1, ""⟩
        | _ => none
    else
      match cs.get? 0 with
      | none => none
      | some c => some ⟨"", jsTrim c.textContent, ""⟩

/-- Modelled from the spec: the purchase-metadata rule exactly as the C1
claim words it.  More than one child node means the location+date shape
and the FIRST child is split on the bar, left part to location, right part
to date; a single child whose text contains a bar means the variation
shape, left part to date, right part to variation; otherwise the whole
text is the date. -/
def specMetadataFirstChild (cs : List Dom) : Option PurchaseInfo :=
  if h : cs.length > 1 then
    match jsSplit '|' (cs.get ⟨0, by omega⟩).textContent with
    | left :: right :: _ => some ⟨jsTrim left, jsTrim right, ""⟩
    | _ => none
  else
    match cs.get? 0 with
    | none => none
    | some c =>
      match jsSplit '|' c.textContent with
      | left :: right :: _ => some ⟨"", jsTrim left, jsTrim right⟩
      | _ => some ⟨"", jsTrim c.textContent, ""⟩

/-- Modelled from the spec: the purchase-metadata rule as amended.  It is
identical to the first-child wording except that in the location+date
shape the SECOND child (index 1) is the one split on the bar. -/
def specMetadataSecondChild (cs : List Dom) : Option PurchaseInfo :=
  if h : cs.length > 1 then
    match jsSplit '|' (cs.get ⟨1, h⟩).textContent with
    | left :: right :: _ => some ⟨jsTrim left, jsTrim right, ""⟩
    | _ => none
  else
    match cs.get? 0 with
    | none => none
    | some c =>
      match jsSplit '|' c.textContent with
      | left :: right :: _ => some ⟨"", jsTrim left, jsTrim right⟩
      | _ => some ⟨"", jsTrim c.textContent, ""⟩

/-- Convenience constructor for a leaf node holding only text content. -/
def textNode (s : String) : Dom := Dom.node { textContent := s } []

/-- A counterexample input for the C1 first-child wording: a
purchase-metadata container with two children carrying different
location lines. -/
def locPairDemo : List Dom :=
  [textNode "Kuala Lumpur | 10 Jan 2024", textNode "Penang | 09 Feb 2024"]

/-- One scraped review record, with the fields assembled by getReviews in
frontend/utils.js lines 94 to 105.  username is none when the code stores
null (empty innerText); each subreview entry is the slot key together with
the category and the optional content (the content is undefined in the
code when the subreview text has no colon). -/
structure ReviewRecord where
  username : Option String
  ratings : Nat
  purchase_date : String
  item_variation : String
  location : String
  subreview : List (String × String × Option String)
  review_content : String
  has_image : Bool
deriving DecidableEq

/-- Review-content extraction, from frontend/utils.js lines 58 to 85: find
the child whose className is the review-content marker; when absent the
sub-reviews are empty and the content is the empty string; when present the
code reads childNodes 0 (the sub-review list, each entry split on the
colon) and childNodes 1 (the free-text body), throwing, hence none, when
either positional child is missing. -/
def contentFields (kids : List Dom) :
    Option (List (String × String × Option String) × String) :=
  match kids.find? (fun c => c.className == "meQyXP") with
  | none => some ([], "")
  | some rcc =>
    (rcc.childNodes.get? 0).bind fun sub0 =>
    (rcc.childNodes.get? 1).bind fun c1 =>
    some (sub0.childNodes.enum.map (fun p =>
            ("sub " ++ Nat.repr p.1,
             (jsSplit ':' p.2.textContent).headI,
             (jsSplit ':' p.2.textContent).get? 1)),
          c1.innerText)

/-- Field extraction for one review item, from the body of the getReviews
loop in frontend/utils.js lines 21 to 105.  Each positional access the
code performs on an element that may be undefined is a bind; none models
the TypeError the code throws at that point. -/
def extractReview (rev : Dom) : Option ReviewRecord :=
  (rev.childNodes.get? 1).bind fun mainContainer =>
  (mainContainer.childNodes.get? 0).bind fun pic0 =>
  (pic0.childNodes.get? 1).bind fun pn1 =>
  (pn1.childNodes.get? 0).bind fun ratingsBox =>
  (pic0.childNodes.get? 2).bind fun pn2 =>
  (pn2.childNodes.get? 0).bind fun ipc0 =>
  (extractPurchaseInfo ipc0.childNodes).bind fun pinfo =>
  (contentFields mainContainer.childNodes).bind fun sc =>
  (pic0.childNodes.get? 0).bind fun un =>
  some { username := if un.innerText = "" then none else some un.innerText
         ratings := (ratingsBox.childNodes.filter
           (fun c => jsIncludes c.baseVal "icon-rating-solid")).length
         purchase_date := pinfo.purchaseDate
         item_variation := pinfo.itemVariation
         location := pinfo.location
         subreview := sc.1
         review_content := sc.2
         has_image := (mainContainer.childNodes.find?
           (fun c => c.className == "ZBCPg1")).isSome }

/-- Correlation key of the review at 1-based position n, as built by the
template literal in frontend/utils.js line 94. -/
def reviewKey (n : Nat) : String := "review " ++ Nat.repr n

/-- Loop of getReviews carrying the running 0-based index.  Any extraction
failure makes the whole call fail, because the code has no per-item
exception handling inside the loop. -/
def getReviewsAux : List Dom → Nat → Option (List (String × ReviewRecord))
  | [], _ => some []
  | rev :: rest, i =>
    match extractReview rev with
    | none => none
    | some r =>
      match getReviewsAux rest (i + 1) with
      | none => none
      | some tail => some ((reviewKey (i + 1), r) :: tail)

/-- The harvester getReviews of frontend/utils.js: walks the rendered
review items in order and builds the keyed record list. -/
def getReviews (reviewsParent : List Dom) : Option (List (String × ReviewRecord)) :=
  getReviewsAux reviewsParent 0

/-- Path to the element whose children the rating filter counts:
purchaserInfoNodes index 1, then its childNodes index 0, as read in
frontend/utils.js line 27. -/
def ratingsRow (rev : Dom) : Option Dom :=
  (rev.childNodes.get? 1).bind fun mainContainer =>
  (mainContainer.childNodes.get? 0).bind fun pic0 =>
  (pic0.childNodes.get? 1).bind fun pn1 =>
  pn1.childNodes.get? 0

/-- Number of filled-star children below the ratings row of an item, the
quantity the code assigns to the ratings field. -/
def solidCount (rev : Dom) : Nat :=
  ((ratingsRow rev).map (fun box =>
    (box.childNodes.filter (fun c => jsIncludes c.baseVal "icon-rating-solid")).length)).getD 0

/-- Total number of children below the ratings row of an item. -/
def starCount (rev : Dom) : Nat :=
  ((ratingsRow rev).map (fun box => box.childNodes.length)).getD 0

/-- One rating-star node with the given filled marker. -/
def mkStar (solid : Bool) : Dom :=
  Dom.node { baseVal := if solid then "shopee-svg-icon icon-rating-solid" else "shopee-svg-icon" } []

/-- A well-formed review item with the given username, star nodes and
purchase-metadata children, no review-content block and no image block,
following the positional layout getReviews expects. -/
def mkItem (username : String) (stars : List Dom) (metaKids : List Dom) : Dom :=
  Dom.node {}
    [Dom.node {} [],
     Dom.node {}
       [Dom.node {}
         [Dom.node { innerText := username } [],
          Dom.node {} [Dom.node {} stars],
          Dom.node {} [Dom.node {} metaKids]]]]

/-- One injected badge element.  The DOM id of the badge for 1-based
review index n is the string b followed by the decimal of n; since that
id determines and is determined by n, lookups by getElementById are keyed
here by the numeric index. -/
structure Badge where
  idx : Nat
  cls : String
  content : String
deriving DecidableEq

/-- Model of getElementById for badge ids. -/
def getBadge (bs : List Badge) (n : Nat) : Option Badge :=
  bs.find? (fun b => b.idx == n)

/-- Updates the class and content of the badge with the given index, as
the error branch of processComments does on an existing badge element. -/
def setBadge (bs : List Badge) (n : Nat) (cls content : String) : List Badge :=
  bs.map (fun b => if b.idx == n then { b with cls := cls, content := content } else b)

/-- One child of the comment-list container as processComments sees it:
whether childNodes index 1 (the injection target) exists, and the class
list of the last child of that target, none when the target has no last
child (the code then throws on the classList access). -/
structure ItemNode where
  hasTarget : Bool
  lastChildClasses : Option (List String)
deriving DecidableEq

/-- The rendered comment list and the badge elements present in the
document. -/
structure PageModel where
  items : List ItemNode
  badges : List Badge
deriving DecidableEq

/-- First loop of processComments, frontend/content.js lines 400 to 409:
for each item with an injection target, record whether its last child
already carries the injected-class marker, then inject a fresh loading
badge keyed b(i+1) unless one with that id already exists; injecting makes
the badge the last child of the target.  none models the TypeError thrown
when an injection target has no last child. -/
def injectLoop : List ItemNode → Nat → List Badge → Bool →
    Option (List ItemNode × List Badge × Bool)
  | [], _, bs, same => some ([], bs, same)
  | it :: rest, i, bs, same =>
    if it.hasTarget then
      match it.lastChildClasses with
      | none => none
      | some cls =>
        let same1 := same || cls.contains "injected-class"
        let hasBadge := (getBadge bs (i + 1)).isSome
        let it1 := if hasBadge then it
                   else { it with lastChildClasses := some ["injected-class", "loading"] }
        let bs1 := if hasBadge then bs
                   else bs ++ [⟨i + 1, "injected-class loading", "Analyzing..."⟩]
        (injectLoop rest (i + 1) bs1 same1).map (fun o => (it1 :: o.1, o.2.1, o.2.2))
    else
      (injectLoop rest (i + 1) bs same).map (fun o => (it :: o.1, o.2.1, o.2.2))

/-- Error branch of processComments, frontend/content.js lines 425 to 435:
walk the items again and, for each one with an injection target whose
badge element exists, rewrite that badge to the error class with the
Analysis failed content. -/
def errorLoop : List ItemNode → Nat → List Badge → List Badge
  | [], _, bs => bs
  | it :: rest, i, bs =>
    if it.hasTarget then
      errorLoop rest (i + 1)
        (if (getBadge bs (i + 1)).isSome
         then setBadge bs (i + 1) "injected-class error" "Analysis failed"
         else bs)
    else errorLoop rest (i + 1) bs

/-- Outcome of one processComments invocation: the updated page (none when
no comment list was found), whether a harvest-and-submit cycle was
entered, how many classification submissions were attempted, and whether
one was dispatched successfully. -/
structure ProcResult where
  page : Option PageModel
  harvested : Bool
  attempts : Nat
  submitted : Bool
deriving DecidableEq

/-- Model of processComments, frontend/content.js lines 394 to 438.  The
sendOk flag abstracts the outcome of the awaited harvest and sendMessage
pair inside the try block: false routes to the catch branch.  When any
item already carried the injected-class marker the function returns before
harvesting; otherwise exactly one submission cycle is attempted, and on
failure every existing badge of a target-bearing item is set to the error
state with no retry. -/
def processComments (target : Option PageModel) (sendOk : Bool) : Option ProcResult :=
  match target with
  | none => some ⟨none, false, 0, false⟩
  | some page =>
    match injectLoop page.items 0 page.badges false with
    | none => none
    | some (items1, badges1, same) =>
      if same then some ⟨some ⟨items1, badges1⟩, false, 0, false⟩
      else if sendOk then some ⟨some ⟨items1, badges1⟩, true, 1, true⟩
      else some ⟨some ⟨items1, errorLoop items1 0 badges1⟩, true, 1, false⟩

/-- State of the pagination observers of observeElement,
frontend/content.js lines 452 to 489: the number of live completion
observers installed on the tracked wrapper, and the delays of the
re-harvest invocations scheduled so far. -/
structure ObsState where
  nCompletion : Nat
  scheduledDelays : List Nat
deriving DecidableEq

/-- Delivery of one style mutation carrying the new opacity value.  A
value other than the steady string 1 makes the outer observer install one
more completion observer; the value 1 makes every live completion observer
schedule processComments after the 200 millisecond settle delay and
disconnect. -/
def stepOpacity (s : ObsState) (v : String) : ObsState :=
  if v ≠ "1" then { s with nCompletion := s.nCompletion + 1 }
  else { nCompletion := 0, scheduledDelays := s.scheduledDelays ++ List.replicate s.nCompletion 200 }

/-- Runs a sequence of opacity mutation events from the armed state with
no completion observer installed. -/
def runOpacity (events : List String) : ObsState :=
  events.foldl stepOpacity ⟨0, []⟩

/-- The message the background relay sends back to a content script. -/
structure OutMessage where
  targetTab : Nat
  action : String
  payload : String
deriving DecidableEq

/-- Model of the initFraudDetection handler of the background script
(src/unnamed/part_000 lines 17 to 34): once the classification response is
available, query the active tab of the current window and send the
validityResults message to the first tab of the query result; the sender
tab recorded by the message listener is never consulted. -/
def relayValidityResults (senderTab : Nat) (activeTabs : List Nat) (results : String) :
    Option OutMessage :=
  match activeTabs with
  | [] => none
  | t :: _ => some { targetTab := t, action := "validityResults", payload := results }

/-- The three-item container of the end-to-end example: a
variation-shaped item, a location-shaped item whose metadata line sits in
the second child of the metadata container, and a date-only item. -/
def c1Demo : List Dom :=
  [mkItem "ana" [mkStar true] [textNode "12 Jan 2024 | Color: Red, Size: M"],
   mkItem "ben" [mkStar true] [textNode "from", textNode "Kuala Lumpur | 10 Jan 2024"],
   mkItem "kim" [mkStar true] [textNode "08 Jan 2024"]]

/-- A review item with no children at all, so the very first positional
access of the extractor hits an undefined element. -/
def c2Malformed : Dom := Dom.node {} []

/-- A fully well-formed review item. -/
def c2Good : Dom := mkItem "alice" [mkStar true] [textNode "08 Jan 2024"]

/-- The extractor agrees everywhere with the amended spec wording of the
purchase-metadata rule (second child in the location+date shape). -/
theorem extractPurchaseInfo_eq_specSecondChild (cs : List Dom) :
    extractPurchaseInfo cs = specMetadataSecondChild cs := by
  unfold extractPurchaseInfo specMetadataSecondChild classifyPurchaseInfo
  by_cases h : cs.length > 1
  · simp only [h, if_true, dif_pos h]
    have h1 : cs.get? 1 = some (cs.get ⟨1, h⟩) := List.get?_eq_get h
    rw [h1]
    rcases jsSplit '|' (cs.get ⟨1, h⟩).textContent with _ | ⟨p0, _ | ⟨p1, rest⟩⟩ <;> simp
  · simp only [h, if_false, dif_neg h]
    rcases hc : cs.get? 0 with _ | c
    · simp
    · simp only []
      rcases hs : jsSplit '|' c.textContent with _ | ⟨p0, _ | ⟨p1, rest⟩⟩
      · simp [hs]
      · simp [hs]
      · simp [hs]

/-- C1 counterexample: on a metadata container with more than one child
the code splits the text of the SECOND child, not the first as the claim
states.  With two different location lines in the two children, the claim
predicts the fields of the first line but the code extracts the second. -/
theorem c1_first_child_rule_counterexample :
    extractPurchaseInfo locPairDemo = some ⟨"Penang", "09 Feb 2024", ""⟩ ∧
    specMetadataFirstChild locPairDemo = some ⟨"Kuala Lumpur", "10 Jan 2024", ""⟩ ∧
    extractPurchaseInfo locPairDemo ≠ specMetadataFirstChild locPairDemo := by
  decide

/-- C1 amended: the extractor classifies the metadata element into the
three shapes exactly as claimed except that the location+date shape splits
the second child of the container; and on the three-item demo container
the harvester produces exactly three records with the variation of the
first, the location of the second, and both fields empty for the third. -/
theorem c1_metadata_rule_and_demo :
    (∀ cs, extractPurchaseInfo cs = specMetadataSecondChild cs) ∧
    (getReviews c1Demo).map (fun m => m.map (fun kv => (kv.1, kv.2.item_variation, kv.2.location))) =
      some [(reviewKey 1, "Color: Red, Size: M", ""),
            (reviewKey 2, "", "Kuala Lumpur"),
            (reviewKey 3, "", "")] :=
  ⟨extractPurchaseInfo_eq_specSecondChild, by decide⟩

/-- C2: the code contradicts the per-item failure policy.  A batch holding
one malformed item and one well-formed item yields no output at all: the
failure of the malformed item propagates out of the loop and aborts the
whole harvest, instead of the mapping merely omitting that index. -/
theorem c2_one_bad_item_aborts_whole_batch :
    extractReview c2Malformed = none ∧
    (extractReview c2Good).isSome = true ∧
    getReviews [c2Malformed, c2Good] = none := by
  decide

/-- Inversion of a successful extraction: every positional access along
the way succeeded and the record is the literal assembled at the end of
the loop body. -/
theorem extractReview_inv (rev : Dom) (r : ReviewRecord) (h : extractReview rev = some r) :
    ∃ mc pic0 pn1 ratingsBox pn2 ipc0 pinfo sc un,
      rev.childNodes.get? 1 = some mc ∧
      mc.childNodes.get? 0 = some pic0 ∧
      pic0.childNodes.get? 1 = some pn1 ∧
      pn1.childNodes.get? 0 = some ratingsBox ∧
      pic0.childNodes.get? 2 = some pn2 ∧
      pn2.childNodes.get? 0 = some ipc0 ∧
      extractPurchaseInfo ipc0.childNodes = some pinfo ∧
      contentFields mc.childNodes = some sc ∧
      pic0.childNodes.get? 0 = some un ∧
      r = { username := if un.innerText = "" then none else some un.innerText
            ratings := (ratingsBox.childNodes.filter
              (fun c => jsIncludes c.baseVal "icon-rating-solid")).length
            purchase_date := pinfo.purchaseDate
            item_variation := pinfo.itemVariation
            location := pinfo.location
            subreview := sc.1
            review_content := sc.2
            has_image := (mc.childNodes.find?
              (fun c => c.className == "ZBCPg1")).isSome } := by
  unfold extractReview at h
  simp only [Option.bind_eq_some] at h
  obtain ⟨mc, h1, pic0, h2, pn1, h3, rb, h4, pn2, h5, ipc0, h6, pinfo, h7, sc, h8, un, h9, h10⟩ := h
  exact ⟨mc, pic0, pn1, rb, pn2, ipc0, pinfo, sc, un, h1, h2, h3, h4, h5, h6, h7, h8, h9,
    (Option.some.inj h10).symm⟩

/-- The purchase-metadata extraction never sets both the location and the
variation: the variation branch leaves location empty, the location branch
leaves the variation empty, and the date-only branch leaves both empty. -/
theorem extractPurchaseInfo_exclusive (cs : List Dom) (p : PurchaseInfo)
    (h : extractPurchaseInfo cs = some p) :
    p.itemVariation = "" ∨ p.location = "" := by
  unfold extractPurchaseInfo at h
  split at h
  · simp at h
  · split_ifs at h
    · split at h
      · simp at h
      · split at h
        · right
          obtain rfl := (Option.some.inj h).symm
          rfl
        · simp at h
    · split at h
      · simp at h
      · split at h
        · left
          obtain rfl := (Option.some.inj h).symm
          rfl
        · simp at h
    · split at h
      · simp at h
      · left
        obtain rfl := (Option.some.inj h).symm
        rfl

/-- C3: every record produced by the extractor has at most one of the
variation and location fields non-empty. -/
theorem c3_variation_location_exclusive (rev : Dom) (r : ReviewRecord)
    (h : extractReview rev = some r) :
    r.item_variation = "" ∨ r.location = "" := by
  obtain ⟨mc, pic0, pn1, rb, pn2, ipc0, pinfo, sc, un,
    h1, h2, h3, h4, h5, h6, h7, h8, h9, hr⟩ := extractReview_inv rev r h
  subst hr
  rcases extractPurchaseInfo_exclusive ipc0.childNodes pinfo h7 with hv | hl
  · left
    exact hv
  · right
    exact hl

/-- Record produced by the extractor on the well-formed demo item. -/
def c3DemoRecord : ReviewRecord := ⟨some "alice", 1, "08 Jan 2024", "", "", [], "", false⟩

/-- Witness for C3 at a concrete item. -/
theorem c3_variation_location_exclusive_witness :
    extractReview c2Good = some c3DemoRecord ∧
    (c3DemoRecord.item_variation = "" ∨ c3DemoRecord.location = "") :=
  ⟨by decide, c3_variation_location_exclusive c2Good c3DemoRecord (by decide)⟩

/-- C8 counterexample: the rating is the raw count of matching children,
which the code never clamps; an item whose ratings row holds six filled
stars yields a rating of six, outside the claimed 0 to 5 range. -/
theorem c8_six_filled_stars_counterexample :
    (extractReview (mkItem "bob" (List.replicate 6 (mkStar true)) [textNode "01 Feb 2024"])).map
      (fun r => r.ratings) = some 6 ∧ ¬(6 ≤ 5) := by
  decide

/-- C8 amended: the extracted rating equals the count of filled-star
children below the ratings row, and it lies within 0 to 5 whenever that
row carries at most five children, which the host page renders but the
code does not enforce. -/
theorem c8_rating_is_filtered_count (rev : Dom) (r : ReviewRecord)
    (h : extractReview rev = some r) :
    r.ratings = solidCount rev ∧ (starCount rev ≤ 5 → r.ratings ≤ 5) := by
  obtain ⟨mc, pic0, pn1, rb, pn2, ipc0, pinfo, sc, un,
    h1, h2, h3, h4, h5, h6, h7, h8, h9, hr⟩ := extractReview_inv rev r h
  have hrow : ratingsRow rev = some rb := by
    unfold ratingsRow
    rw [h1, Option.some_bind, h2, Option.some_bind, h3, Option.some_bind, h4]
  have hs : solidCount rev =
      (rb.childNodes.filter (fun c => jsIncludes c.baseVal "icon-rating-solid")).length := by
    simp [solidCount, hrow]
  have hst : starCount rev = rb.childNodes.length := by
    simp [starCount, hrow]
  subst hr
  refine ⟨hs.symm, fun hb => ?_⟩
  rw [hst] at hb
  exact le_trans (List.length_filter_le _ _) hb

/-- A three-star demo item, two stars filled. -/
def c8DemoItem : Dom := mkItem "eve" [mkStar true, mkStar true, mkStar false] [textNode "03 Mar 2024"]

/-- Record produced by the extractor on the three-star demo item. -/
def c8DemoRecord : ReviewRecord := ⟨some "eve", 2, "03 Mar 2024", "", "", [], "", false⟩

/-- Witness for the amended C8 at a concrete item. -/
theorem c8_rating_is_filtered_count_witness :
    extractReview c8DemoItem = some c8DemoRecord ∧
    (c8DemoRecord.ratings = solidCount c8DemoItem ∧
      (starCount c8DemoItem ≤ 5 → c8DemoRecord.ratings ≤ 5)) :=
  ⟨by decide, c8_rating_is_filtered_count c8DemoItem c8DemoRecord (by decide)⟩

/-- Keys produced by the harvester loop from a given starting index. -/
theorem getReviewsAux_keys : ∀ (items : List Dom) (i : Nat) (m : List (String × ReviewRecord)),
    getReviewsAux items i = some m →
    m.map Prod.fst = (List.range items.length).map (fun j => reviewKey (i + j + 1))
  | [], _, m, h => by
      simp only [getReviewsAux, Option.some.injEq] at h
      subst h
      simp
  | rev :: rest, i, m, h => by
      unfold getReviewsAux at h
      rcases he : extractReview rev with _ | r <;> rw [he] at h
      · exact absurd h (by simp)
      rcases ht : getReviewsAux rest (i + 1) with _ | tail <;> rw [ht] at h
      · exact absurd h (by simp)
      obtain rfl := (Option.some.inj h).symm
      have ihr := getReviewsAux_keys rest (i + 1) tail ht
      simp only [List.map_cons, List.length_cons, ihr]
      rw [List.range_succ_eq_map, List.map_cons, List.map_map]
      congr 1
      apply List.map_congr_left
      intro j hj
      simp only [Function.comp_apply]
      congr 1
      omega

/-- C6: whenever the harvester produces an output mapping for N items,
its keys are exactly the correlation keys of indices 1 to N in rendered
order. -/
theorem c6_keys_one_to_n (items : List Dom) (m : List (String × ReviewRecord))
    (h : getReviews items = some m) :
    m.map Prod.fst = (List.range items.length).map (fun j => reviewKey (j + 1)) := by
  have hk := getReviewsAux_keys items 0 m h
  simpa using hk

/-- Two-item demo container for the key-ordering witness. -/
def c6Demo : List Dom := [c2Good, c8DemoItem]

/-- Output of the harvester on the two-item demo container. -/
def c6DemoOut : List (String × ReviewRecord) :=
  [(reviewKey 1, c3DemoRecord), (reviewKey 2, c8DemoRecord)]

/-- Witness for C6 at a concrete container. -/
theorem c6_keys_one_to_n_witness :
    getReviews c6Demo = some c6DemoOut ∧
    c6DemoOut.map Prod.fst = (List.range c6Demo.length).map (fun j => reviewKey (j + 1)) :=
  ⟨by decide, c6_keys_one_to_n c6Demo c6DemoOut (by decide)⟩

/-- Folding only non-steady opacity values over the observer state adds
one completion observer per event and schedules nothing. -/
theorem foldl_stepOpacity_nonsteady : ∀ (mids : List String) (s : ObsState),
    (∀ v ∈ mids, v ≠ "1") →
    mids.foldl stepOpacity s = ⟨s.nCompletion + mids.length, s.scheduledDelays⟩
  | [], s, _ => by simp
  | v :: rest, s, h => by
      have hv : v ≠ "1" := h v (List.mem_cons_self v rest)
      have hr := foldl_stepOpacity_nonsteady rest
        { s with nCompletion := s.nCompletion + 1 }
        (fun w hw => h w (List.mem_cons_of_mem v hw))
      simp only [List.foldl_cons, stepOpacity, if_pos hv, hr, List.length_cons]
      congr 1
      omega

/-- C4 amended: an opacity transition with k intermediate non-steady
values schedules k re-harvest invocations, each after the 200 millisecond
settle delay, because every intermediate mutation installs its own
completion observer and each live completion observer fires when the
opacity returns to 1. -/
theorem c4_one_reharvest_per_intermediate (mids : List String) (h : ∀ v ∈ mids, v ≠ "1") :
    (runOpacity (mids ++ ["1"])).scheduledDelays = List.replicate mids.length 200 := by
  unfold runOpacity
  rw [List.foldl_append, foldl_stepOpacity_nonsteady mids ⟨0, []⟩ h]
  simp [stepOpacity]

/-- C4 counterexample: a transition from 1 through the two intermediate
values 0.5 and 0.3 back to 1 schedules two re-harvest invocations, not
exactly one. -/
theorem c4_two_intermediates_two_reharvests :
    (runOpacity ["0.5", "0.3", "1"]).scheduledDelays = [200, 200] ∧
    (runOpacity ["0.5", "0.3", "1"]).scheduledDelays.length ≠ 1 := by
  decide

/-- Witness for the amended C4 with a single intermediate value. -/
theorem c4_one_reharvest_per_intermediate_witness :
    (∀ v ∈ (["0.5"] : List String), v ≠ "1") ∧
    (runOpacity (["0.5"] ++ ["1"])).scheduledDelays =
      List.replicate (["0.5"] : List String).length 200 :=
  ⟨by decide, c4_one_reharvest_per_intermediate ["0.5"] (by decide)⟩

/-- Appending badge elements preserves an existing getElementById hit. -/
theorem getBadge_mono_append (bs : List Badge) (b : Badge) (n : Nat)
    (h : (getBadge bs n).isSome = true) : (getBadge (bs ++ [b]) n).isSome = true := by
  unfold getBadge at h ⊢
  rw [List.find?_append]
  rcases hf : List.find? (fun x => x.idx == n) bs with _ | x
  · rw [hf] at h
    simp at h
  · simp [hf]

/-- A freshly appended badge is found under its own index. -/
theorem getBadge_append_fresh (bs : List Badge) (n : Nat) (cls ct : String) :
    (getBadge (bs ++ [⟨n, cls, ct⟩]) n).isSome = true := by
  unfold getBadge
  rw [List.find?_append]
  rcases hf : List.find? (fun x => x.idx == n) bs with _ | x
  · simp
  · simp [hf]

/-- Rewriting the badge with a given index turns the found element into
the updated one. -/
theorem getBadge_setBadge_self : ∀ (bs : List Badge) (n : Nat) (cls ct : String) (b : Badge),
    getBadge bs n = some b →
    getBadge (setBadge bs n cls ct) n = some ⟨b.idx, cls, ct⟩
  | [], n, cls, ct, b, h => by simp [getBadge] at h
  | x :: xs, n, cls, ct, b, h => by
      unfold getBadge at h ⊢
      unfold setBadge
      rw [List.map_cons]
      by_cases hx : (x.idx == n) = true
      · rw [@List.find?_cons_of_pos Badge (fun q => q.idx == n) x xs hx] at h
        obtain rfl := Option.some.inj h
        rw [if_pos hx]
        exact @List.find?_cons_of_pos Badge (fun q => q.idx == n)
          { x with cls := cls, content := ct } _ hx
      · rw [@List.find?_cons_of_neg Badge (fun q => q.idx == n) x xs (by simp [hx])] at h
        rw [if_neg hx]
        rw [@List.find?_cons_of_neg Badge (fun q => q.idx == n) x _ (by simp [hx])]
        exact getBadge_setBadge_self xs n cls ct b h

/-- Rewriting the badge with a different index leaves a lookup unchanged. -/
theorem getBadge_setBadge_ne : ∀ (bs : List Badge) (n m : Nat), m ≠ n → ∀ (cls ct : String),
    getBadge (setBadge bs m cls ct) n = getBadge bs n
  | [], _, _, _, _, _ => rfl
  | x :: xs, n, m, hnm, cls, ct => by
      unfold getBadge setBadge
      rw [List.map_cons]
      by_cases hxm : (x.idx == m) = true
      · have hxm2 : x.idx = m := by simpa using hxm
        have hxn : ¬(x.idx == n) = true := by
          rw [hxm2]
          simpa using hnm
        rw [if_pos hxm]
        rw [@List.find?_cons_of_neg Badge (fun q => q.idx == n)
          { x with cls := cls, content := ct } _ hxn]
        rw [@List.find?_cons_of_neg Badge (fun q => q.idx == n) x xs hxn]
        exact getBadge_setBadge_ne xs n m hnm cls ct
      · rw [if_neg hxm]
        by_cases hxn : (x.idx == n) = true
        · rw [@List.find?_cons_of_pos Badge (fun q => q.idx == n) x _ hxn]
          rw [@List.find?_cons_of_pos Badge (fun q => q.idx == n) x xs hxn]
        · rw [@List.find?_cons_of_neg Badge (fun q => q.idx == n) x _ (by simp [hxn])]
          rw [@List.find?_cons_of_neg Badge (fun q => q.idx == n) x xs (by simp [hxn])]
          exact getBadge_setBadge_ne xs n m hnm cls ct

/-- The error loop never touches badges at or below its starting index. -/
theorem errorLoop_preserves_low : ∀ (items : List ItemNode) (i : Nat) (bs : List Badge) (n : Nat),
    n ≤ i → getBadge (errorLoop items i bs) n = getBadge bs n
  | [], _, _, _, _ => rfl
  | it :: rest, i, bs, n, hn => by
      unfold errorLoop
      by_cases ht : it.hasTarget = true
      · rw [if_pos ht]
        rw [errorLoop_preserves_low rest (i + 1) _ n (by omega)]
        by_cases hb : (getBadge bs (i + 1)).isSome = true
        · rw [if_pos hb]
          exact getBadge_setBadge_ne bs n (i + 1) (by omega) _ _
        · rw [if_neg hb]
      · rw [if_neg ht]
        exact errorLoop_preserves_low rest (i + 1) bs n (by omega)

/-- The error loop rewrites the badge of every target-bearing item whose
badge element exists into the error state. -/
theorem errorLoop_sets : ∀ (items : List ItemNode) (i : Nat) (bs : List Badge)
    (j : Nat) (hj : j < items.length),
    (items.get ⟨j, hj⟩).hasTarget = true →
    (getBadge bs (i + j + 1)).isSome = true →
    ∃ b, getBadge (errorLoop items i bs) (i + j + 1) = some b ∧
      b.cls = "injected-class error" ∧ b.content = "Analysis failed"
  | [], _, _, j, hj, _, _ => absurd hj (by simp)
  | it :: rest, i, bs, 0, hj, hht, hbs => by
      have hht0 : it.hasTarget = true := hht
      unfold errorLoop
      rw [if_pos hht0]
      have hb1 : (getBadge bs (i + 1)).isSome = true := by
        have : i + 0 + 1 = i + 1 := by omega
        rwa [this] at hbs
      rw [if_pos hb1]
      rcases hb : getBadge bs (i + 1) with _ | b0
      · rw [hb] at hb1
        simp at hb1
      · have hset := getBadge_setBadge_self bs (i + 1) "injected-class error" "Analysis failed" b0 hb
        have hlow := errorLoop_preserves_low rest (i + 1)
          (setBadge bs (i + 1) "injected-class error" "Analysis failed") (i + 1) (by omega)
        refine ⟨⟨b0.idx, "injected-class error", "Analysis failed"⟩, ?_, rfl, rfl⟩
        have : i + 0 + 1 = i + 1 := by omega
        rw [this, hlow, hset]
  | it :: rest, i, bs, j + 1, hj, hht, hbs => by
      unfold errorLoop
      have hj2 : j < rest.length := by simpa using Nat.lt_of_succ_lt_succ hj
      have hht2 : (rest.get ⟨j, hj2⟩).hasTarget = true := hht
      have hidx : i + (j + 1) + 1 = (i + 1) + j + 1 := by omega
      by_cases ht : it.hasTarget = true
      · rw [if_pos ht]
        by_cases hb : (getBadge bs (i + 1)).isSome = true
        · rw [if_pos hb]
          have hbs2 : (getBadge (setBadge bs (i + 1) "injected-class error" "Analysis failed")
              ((i + 1) + j + 1)).isSome = true := by
            rw [getBadge_setBadge_ne bs ((i + 1) + j + 1) (i + 1) (by omega)]
            rwa [hidx] at hbs
          obtain ⟨b, hbb, hcl, hct⟩ := errorLoop_sets rest (i + 1) _ j hj2 hht2 hbs2
          exact ⟨b, by rwa [hidx], hcl, hct⟩
        · rw [if_neg hb]
          have hbs2 : (getBadge bs ((i + 1) + j + 1)).isSome = true := by rwa [hidx] at hbs
          obtain ⟨b, hbb, hcl, hct⟩ := errorLoop_sets rest (i + 1) bs j hj2 hht2 hbs2
          exact ⟨b, by rwa [hidx], hcl, hct⟩
      · rw [if_neg ht]
        have hbs2 : (getBadge bs ((i + 1) + j + 1)).isSome = true := by rwa [hidx] at hbs
        obtain ⟨b, hbb, hcl, hct⟩ := errorLoop_sets rest (i + 1) bs j hj2 hht2 hbs2
        exact ⟨b, by rwa [hidx], hcl, hct⟩

/-- When every item carries the badge marker and every badge element
already exists, the injection loop changes nothing and reports the set as
already processed. -/
theorem injectLoop_all_badged : ∀ (items : List ItemNode) (i : Nat) (bs : List Badge) (same : Bool),
    (∀ it ∈ items, it.hasTarget = true ∧ it.lastChildClasses ≠ none ∧
      (it.lastChildClasses.getD []).contains "injected-class" = true) →
    (∀ j, j < items.length → (getBadge bs (i + j + 1)).isSome = true) →
    injectLoop items i bs same = some (items, bs, same || !items.isEmpty)
  | [], _, bs, same, _, _ => by simp [injectLoop]
  | it :: rest, i, bs, same, hall, hb => by
      obtain ⟨ht, hne, hcont⟩ := hall it (List.mem_cons_self it rest)
      rcases hlc : it.lastChildClasses with _ | cls
      · exact absurd hlc hne
      · have hcls : cls.contains "injected-class" = true := by
          rw [hlc] at hcont
          simpa using hcont
        have hbadge0 : (getBadge bs (i + 1)).isSome = true := by
          have h0 := hb 0 (by simp)
          simpa using h0
        have ih := injectLoop_all_badged rest (i + 1) bs true
          (fun x hx => hall x (List.mem_cons_of_mem it hx))
          (fun j hj => by
            have hj1 := hb (j + 1) (by simpa using Nat.succ_lt_succ hj)
            have he : i + (j + 1) + 1 = (i + 1) + j + 1 := by omega
            rwa [he] at hj1)
        unfold injectLoop
        rw [if_pos ht, hlc]
        simp only [hcls, Bool.or_true, hbadge0, if_true, ih, Bool.true_or, Option.map_some]
        simp

/-- When every target-bearing item has a last child, the injection loop
succeeds, and its processed flag is true as soon as one item already
carries the badge marker. -/
theorem injectLoop_total_badged : ∀ (items : List ItemNode) (i : Nat) (bs : List Badge) (same : Bool),
    (∀ it ∈ items, it.hasTarget = true → it.lastChildClasses ≠ none) →
    ∃ items1 bs1 same1, injectLoop items i bs same = some (items1, bs1, same1) ∧
      (same = true → same1 = true) ∧
      ((∃ it ∈ items, it.hasTarget = true ∧
        (it.lastChildClasses.getD []).contains "injected-class" = true) → same1 = true)
  | [], _, bs, same, _ =>
      ⟨[], bs, same, by simp [injectLoop], fun h => h, by simp⟩
  | it :: rest, i, bs, same, hsafe => by
      by_cases ht : it.hasTarget = true
      · rcases hlc : it.lastChildClasses with _ | cls
        · exact absurd hlc (hsafe it (List.mem_cons_self it rest) ht)
        · obtain ⟨items1, bs1, same1, heq, hmono, hbadged⟩ :=
            injectLoop_total_badged rest (i + 1)
              (if (getBadge bs (i + 1)).isSome then bs
               else bs ++ [⟨i + 1, "injected-class loading", "Analyzing..."⟩])
              (same || cls.contains "injected-class")
              (fun x hx hxt => hsafe x (List.mem_cons_of_mem it hx) hxt)
          refine ⟨(if (getBadge bs (i + 1)).isSome then it
                   else { it with lastChildClasses := some ["injected-class", "loading"] }) :: items1,
                  bs1, same1, ?_, ?_, ?_⟩
          · unfold injectLoop
            rw [if_pos ht, hlc]
            simp only [heq]
            rfl
          · intro hs
            exact hmono (by simp [hs])
          · rintro ⟨x, hx, hxt, hxc⟩
            rcases List.mem_cons.mp hx with rfl | hx2
            · apply hmono
              rw [hlc] at hxc
              simp only [Option.getD_some] at hxc
              simp only [Bool.or_eq_true]
              right
              exact hxc
            · exact hbadged ⟨x, hx2, hxt, hxc⟩
      · obtain ⟨items1, bs1, same1, heq, hmono, hbadged⟩ :=
          injectLoop_total_badged rest (i + 1) bs same
            (fun x hx hxt => hsafe x (List.mem_cons_of_mem it hx) hxt)
        refine ⟨it :: items1, bs1, same1, ?_, hmono, ?_⟩
        · unfold injectLoop
          rw [if_neg ht]
          rw [heq]
          rfl
        · rintro ⟨x, hx, hxt, hxc⟩
          rcases List.mem_cons.mp hx with rfl | hx2
          · exact absurd hxt ht
          · exact hbadged ⟨x, hx2, hxt, hxc⟩

/-- When no rendered item carries the badge marker, the injection loop
succeeds with the processed flag still false, preserves every hasTarget
flag, ensures a badge element exists for every target-bearing item, and
keeps every pre-existing badge findable. -/
theorem injectLoop_clean : ∀ (items : List ItemNode) (i : Nat) (bs : List Badge),
    (∀ it ∈ items, it.hasTarget = true →
      it.lastChildClasses ≠ none ∧ (it.lastChildClasses.getD []).contains "injected-class" = false) →
    ∃ items1 bs1, injectLoop items i bs false = some (items1, bs1, false) ∧
      items1.length = items.length ∧
      (∀ j (hj : j < items.length) (hj1 : j < items1.length),
        (items1.get ⟨j, hj1⟩).hasTarget = (items.get ⟨j, hj⟩).hasTarget) ∧
      (∀ j (hj : j < items.length), (items.get ⟨j, hj⟩).hasTarget = true →
        (getBadge bs1 (i + j + 1)).isSome = true) ∧
      (∀ n, (getBadge bs n).isSome = true → (getBadge bs1 n).isSome = true)
  | [], i, bs, _ =>
      ⟨[], bs, by simp [injectLoop], rfl,
        fun j hj _ => absurd hj (by simp),
        fun j hj => absurd hj (by simp),
        fun _ h => h⟩
  | it :: rest, i, bs, hclean => by
      by_cases ht : it.hasTarget = true
      · obtain ⟨hne, hcf⟩ := hclean it (List.mem_cons_self it rest) ht
        rcases hlc : it.lastChildClasses with _ | cls
        · exact absurd hlc hne
        · have hcls : cls.contains "injected-class" = false := by
            rw [hlc] at hcf
            simpa using hcf
          have hexists1 : (getBadge (if (getBadge bs (i + 1)).isSome then bs
              else bs ++ [⟨i + 1, "injected-class loading", "Analyzing..."⟩]) (i + 1)).isSome = true := by
            by_cases hb : (getBadge bs (i + 1)).isSome = true
            · rw [if_pos hb]
              exact hb
            · rw [if_neg hb]
              exact getBadge_append_fresh bs (i + 1) _ _
          obtain ⟨items1, bs1, heq, hlen, hpres, hbadge, hmono⟩ :=
            injectLoop_clean rest (i + 1)
              (if (getBadge bs (i + 1)).isSome then bs
               else bs ++ [⟨i + 1, "injected-class loading", "Analyzing..."⟩])
              (fun x hx hxt => hclean x (List.mem_cons_of_mem it hx) hxt)
          refine ⟨(if (getBadge bs (i + 1)).isSome then it
                   else { it with lastChildClasses := some ["injected-class", "loading"] }) :: items1,
                  bs1, ?_, by simpa using hlen, ?_, ?_, ?_⟩
          · unfold injectLoop
            rw [if_pos ht, hlc]
            simp only [hcls, Bool.false_or, heq]
            rfl
          · intro j hj hj1
            match j with
            | 0 =>
                by_cases hb : (getBadge bs (i + 1)).isSome = true
                · simp [hb]
                · simp [hb]
            | j + 1 =>
                exact hpres j (by simpa using Nat.lt_of_succ_lt_succ hj)
                  (by simpa using Nat.lt_of_succ_lt_succ hj1)
          · intro j hj hjt
            match j with
            | 0 =>
                have he : i + 0 + 1 = i + 1 := by omega
                rw [he]
                exact hmono (i + 1) hexists1
            | j + 1 =>
                have hj2 : j < rest.length := by simpa using Nat.lt_of_succ_lt_succ hj
                have hjt2 : (rest.get ⟨j, hj2⟩).hasTarget = true := hjt
                have hb := hbadge j hj2 hjt2
                have he : i + (j + 1) + 1 = (i + 1) + j + 1 := by omega
                rwa [he]
          · intro n hn
            apply hmono
            by_cases hb : (getBadge bs (i + 1)).isSome = true
            · rw [if_pos hb]
              exact hn
            · rw [if_neg hb]
              exact getBadge_mono_append bs _ n hn
      · obtain ⟨items1, bs1, heq, hlen, hpres, hbadge, hmono⟩ :=
          injectLoop_clean rest (i + 1) bs
            (fun x hx hxt => hclean x (List.mem_cons_of_mem it hx) hxt)
        refine ⟨it :: items1, bs1, ?_, by simpa using hlen, ?_, ?_, hmono⟩
        · unfold injectLoop
          rw [if_neg ht]
          rw [heq]
          rfl
        · intro j hj hj1
          match j with
          | 0 => rfl
          | j + 1 =>
              exact hpres j (by simpa using Nat.lt_of_succ_lt_succ hj)
                (by simpa using Nat.lt_of_succ_lt_succ hj1)
        · intro j hj hjt
          match j with
          | 0 => exact absurd hjt ht
          | j + 1 =>
              have hj2 : j < rest.length := by simpa using Nat.lt_of_succ_lt_succ hj
              have hjt2 : (rest.get ⟨j, hj2⟩).hasTarget = true := hjt
              have hb := hbadge j hj2 hjt2
              have he : i + (j + 1) + 1 = (i + 1) + j + 1 := by omega
              rwa [he]

/-- C5: invoking processComments on an unchanged rendered set in which
every item already bears an injected badge is a no-op: the guard sees the
markers and returns with no harvest and no submission, leaving the page
exactly as it was, so a second invocation submits nothing either. -/
theorem c5_no_second_submission (page : PageModel) (sendOk : Bool)
    (hne : page.items ≠ [])
    (hall : ∀ it ∈ page.items, it.hasTarget = true ∧ it.lastChildClasses ≠ none ∧
      (it.lastChildClasses.getD []).contains "injected-class" = true)
    (hb : ∀ j, j < page.items.length → (getBadge page.badges (j + 1)).isSome = true) :
    processComments (some page) sendOk = some ⟨some page, false, 0, false⟩ := by
  have hb0 : ∀ j, j < page.items.length → (getBadge page.badges (0 + j + 1)).isSome = true := by
    intro j hj
    have hj1 := hb j hj
    have he : 0 + j + 1 = j + 1 := by omega
    rwa [he]
  have hinj := injectLoop_all_badged page.items 0 page.badges false hall hb0
  have hnemp : (!page.items.isEmpty) = true := by
    rcases hpi : page.items with _ | ⟨a, l⟩
    · exact absurd hpi hne
    · simp
  have hinj2 : injectLoop page.items 0 page.badges false =
      some (page.items, page.badges, true) := by
    rw [hinj]
    simp [hnemp]
  simp only [processComments]
  rw [hinj2]
  rfl

/-- Fully badged single-item page for the C5 witness. -/
def c5DemoPage : PageModel :=
  ⟨[⟨true, some ["injected-class", "loading"]⟩],
   [⟨1, "injected-class loading", "Analyzing..."⟩]⟩

/-- Witness for C5 at a concrete page state. -/
theorem c5_no_second_submission_witness :
    c5DemoPage.items ≠ [] ∧
    processComments (some c5DemoPage) true = some ⟨some c5DemoPage, false, 0, false⟩ :=
  ⟨by decide, c5_no_second_submission c5DemoPage true (by decide) (by decide) (by decide)⟩

/-- C9: the guard fires as soon as ANY single rendered item already
carries the injected-class marker on the last child of its injection
target: processComments then returns with no harvest and no submission,
even when other items are unbadged. -/
theorem c9_any_badged_item_suppresses (page : PageModel) (sendOk : Bool)
    (hsafe : ∀ it ∈ page.items, it.hasTarget = true → it.lastChildClasses ≠ none)
    (hone : ∃ it ∈ page.items, it.hasTarget = true ∧
      (it.lastChildClasses.getD []).contains "injected-class" = true) :
    (processComments (some page) sendOk).map (fun r => (r.harvested, r.attempts, r.submitted)) =
      some (false, 0, false) := by
  obtain ⟨items1, bs1, same1, heq, _, hbadged⟩ :=
    injectLoop_total_badged page.items 0 page.badges false hsafe
  have h1 : same1 = true := hbadged hone
  subst h1
  simp only [processComments]
  rw [heq]
  rfl

/-- Partially badged two-item page for the C9 witness: only the first
item carries the marker. -/
def c9DemoPage : PageModel :=
  ⟨[⟨true, some ["injected-class", "loading"]⟩, ⟨true, some []⟩],
   [⟨1, "injected-class loading", "Analyzing..."⟩]⟩

/-- Witness for C9 at a concrete page state. -/
theorem c9_any_badged_item_suppresses_witness :
    (∃ it ∈ c9DemoPage.items, it.hasTarget = true ∧
      (it.lastChildClasses.getD []).contains "injected-class" = true) ∧
    (processComments (some c9DemoPage) true).map (fun r => (r.harvested, r.attempts, r.submitted)) =
      some (false, 0, false) :=
  ⟨by decide, c9_any_badged_item_suppresses c9DemoPage true (by decide) (by decide)⟩

/-- C7: when the harvest-and-submit step fails, exactly one submission
cycle was attempted with no retry, and the badge of every target-bearing
rendered item ends in the error state with the Analysis failed content. -/
theorem c7_transport_failure_error_badges (page : PageModel)
    (hclean : ∀ it ∈ page.items, it.hasTarget = true →
      it.lastChildClasses ≠ none ∧ (it.lastChildClasses.getD []).contains "injected-class" = false) :
    (processComments (some page) false).map (fun r => (r.harvested, r.attempts, r.submitted)) =
      some (true, 1, false) ∧
    ∀ j (hj : j < page.items.length), (page.items.get ⟨j, hj⟩).hasTarget = true →
      ((processComments (some page) false).bind ProcResult.page).map
        (fun p1 => (getBadge p1.badges (j + 1)).map (fun b => (b.cls, b.content))) =
      some (some ("injected-class error", "Analysis failed")) := by
  obtain ⟨items1, bs1, heq, hlen, hpres, hbadge, hmono⟩ :=
    injectLoop_clean page.items 0 page.badges hclean
  have hproc : processComments (some page) false =
      some ⟨some ⟨items1, errorLoop items1 0 bs1⟩, true, 1, false⟩ := by
    simp only [processComments]
    rw [heq]
    rfl
  constructor
  · rw [hproc]
    rfl
  · intro j hj hjt
    rw [hproc]
    have hj1 : j < items1.length := by omega
    have hjt1 : (items1.get ⟨j, hj1⟩).hasTarget = true := by
      rw [hpres j hj hj1]
      exact hjt
    have hbs : (getBadge bs1 (0 + j + 1)).isSome = true := hbadge j hj hjt
    obtain ⟨b, hbb, hcl, hct⟩ := errorLoop_sets items1 0 bs1 j hj1 hjt1 hbs
    have he : 0 + j + 1 = j + 1 := by omega
    rw [he] at hbb
    simp [hbb, hcl, hct]

/-- Unbadged two-item page for the C7 witness. -/
def c7DemoPage : PageModel := ⟨[⟨true, some []⟩, ⟨true, some ["shopee-avatar"]⟩], []⟩

/-- Witness for C7 at a concrete page state, reading the badge of the
first item after the failed cycle. -/
theorem c7_transport_failure_error_badges_witness :
    (∀ it ∈ c7DemoPage.items, it.hasTarget = true →
      it.lastChildClasses ≠ none ∧ (it.lastChildClasses.getD []).contains "injected-class" = false) ∧
    (processComments (some c7DemoPage) false).map (fun r => (r.harvested, r.attempts, r.submitted)) =
      some (true, 1, false) ∧
    ((processComments (some c7DemoPage) false).bind ProcResult.page).map
      (fun p1 => (getBadge p1.badges (0 + 1)).map (fun b => (b.cls, b.content))) =
      some (some ("injected-class error", "Analysis failed")) :=
  ⟨by decide,
   (c7_transport_failure_error_badges c7DemoPage (by decide)).1,
   (c7_transport_failure_error_badges c7DemoPage (by decide)).2 0 (by decide) (by decide)⟩

/-- C10: the background relay sends the validityResults message to the
first result of the active-tab query made when the classification response
arrives, independently of which tab hosted the submitting content script;
in particular with sender tab 1 and active tab 2 the message goes to tab 2
and never to tab 1. -/
theorem c10_relay_targets_active_tab :
    (∀ s1 s2 tabs res, relayValidityResults s1 tabs res = relayValidityResults s2 tabs res) ∧
    (∀ s tabs res, (relayValidityResults s tabs res).map OutMessage.targetTab = tabs.head?) ∧
    relayValidityResults 1 [2] "results" =
      some { targetTab := 2, action := "validityResults", payload := "results" } ∧
    (relayValidityResults 1 [2] "results").map OutMessage.targetTab ≠ some 1 := by
  refine ⟨?_, ?_, rfl, by decide⟩
  · intro s1 s2 tabs res
    cases tabs <;> rfl
  · intro s tabs res
    cases tabs <;> rfl
